import Mathlib

/-!
Verification of the sportsbook behavioral-simulation core
(`projects/sportsbook/run_sportsbook_analysis.py` and
`projects/sportsbook/monte_carlo_validation.py`).

The Python simulator is embedded shallowly over exact rational arithmetic:

* Python floats become `ℚ`; `np.clip` becomes `clipQ` / `clipZ`
  (lower bound applied first, then upper, exactly as NumPy does).
* Every random draw of the simulator (`np.random.default_rng(seed)` and the
  `random` module, both seeded from the single `seed` argument) is supplied
  by an `Oracle`: a record of streams indexed by the same loop indices the
  Python code draws at.  All theorems below hold for every oracle, hence for
  the seeded PRNG streams in particular.
* `math.exp` is transcendental, so the value of `math.exp (-alpha * weeks_active)`
  is supplied through the oracle field `expFn`; every property proved here
  holds for all values of that function.
* Python's `round` rounds half-to-even while `round : ℚ → ℤ` rounds half up;
  the two differ only at exact half-integers and no property proved here
  depends on a rounded value.
* The global monotone `bet_id` / `leg_id` counters and the wall-clock
  `bet_datetime` column are plumbing not referenced by any verified property
  and are omitted; each emitted bet instead carries its legs inline (the
  Python tables are 1:1 by `bet_id`) plus its per-bet cost fields, and two
  bookkeeping fields (`weekIdx`, `weeksActive`) that record the simulated
  week and customer tenure at emission time, used to state temporal and
  tenure-cap properties.
-/

set_option maxRecDepth 4000

/-- Behavioral segment of a customer (`CustomerProfile.segment`). -/
inductive Segment
  | sharp
  | regular
  | casual
  | promoHunter
deriving DecidableEq

/-- Bet type chosen per bet (`type_choices` in `simulate_ledger`). -/
inductive BetType
  | moneyline
  | spread
  | total
  | parlay
deriving DecidableEq

/-- Market of a single leg (for parlays, drawn per leg). -/
inductive MarketType
  | moneyline
  | spread
  | total
deriving DecidableEq

/-- Outcome of a leg settlement and of a whole bet (`win` / `lose` / `push`). -/
inductive Result
  | win
  | lose
  | push
deriving DecidableEq

/-- Side or over/under selection of a leg. -/
inductive Selection
  | home
  | away
  | over
  | under
deriving DecidableEq

/-- A per-segment table of rationals, mirroring the Python dicts keyed by
segment name (for dicts missing a key, the `.get` default is stored in the
corresponding field, e.g. `mid_churn_mult` has no `sharp` entry and
`.get("sharp", 1.0)` yields `1.0`). -/
structure SegMap where
  sharp : ℚ
  regular : ℚ
  casual : ℚ
  promoHunter : ℚ
deriving DecidableEq

def SegMap.get (m : SegMap) : Segment → ℚ
  | .sharp => m.sharp
  | .regular => m.regular
  | .casual => m.casual
  | .promoHunter => m.promoHunter

/-- The churn configuration dict (`DEFAULT_CHURN_CONFIG` keys). -/
structure ChurnConfig where
  baseWeeklyChurn : SegMap
  alpha : ℚ
  churnPlateauMult : ℚ
  earlyChurnMult : SegMap
  midChurnMult : SegMap
  tailChurnMult : SegMap
  inactivityMult : ℚ
  negativeNetMult : ℚ
  promoHunterPostPromoMult : ℚ
  promoHunterPostPromoWeeks : List ℤ
  minChurn : ℚ
  maxChurn : ℚ
deriving DecidableEq

/-- `DEFAULT_CHURN_CONFIG` from the source (the `mid_churn_mult` and
`tail_churn_mult` dicts have no `sharp` key, so the `.get` default `1.0`
is stored for `sharp`). -/
def defaultChurnConfig : ChurnConfig where
  baseWeeklyChurn := { sharp := 0.020, regular := 0.050, casual := 0.080, promoHunter := 0.120 }
  alpha := 0.05
  churnPlateauMult := 0.68
  earlyChurnMult := { sharp := 1.15, regular := 1.25, casual := 1.40, promoHunter := 1.60 }
  midChurnMult := { sharp := 1.0, regular := 2.00, casual := 2.40, promoHunter := 2.90 }
  tailChurnMult := { sharp := 1.0, regular := 1.35, casual := 1.70, promoHunter := 2.00 }
  inactivityMult := 2.5
  negativeNetMult := 1.45
  promoHunterPostPromoMult := 1.20
  promoHunterPostPromoWeeks := [1, 2, 3, 4]
  minChurn := 0.006
  maxChurn := 0.65

/-- `np.clip` on rationals: the lower bound is applied first, then the upper. -/
def clipQ (x lo hi : ℚ) : ℚ := min (max x lo) hi

/-- `np.clip` on integers. -/
def clipZ (x lo hi : ℤ) : ℤ := min (max x lo) hi

theorem clipQ_mem (x lo hi : ℚ) (h : lo ≤ hi) : lo ≤ clipQ x lo hi ∧ clipQ x lo hi ≤ hi :=
  ⟨le_min (le_max_right x lo) h, min_le_right _ _⟩

theorem clipQ_le (x lo hi : ℚ) : clipQ x lo hi ≤ hi := min_le_right _ _

/-- `CustomerProfile` (the generator's output row; preference weights are the
four market weights). -/
structure Customer where
  customerId : ℕ
  segment : Segment
  freq : ℚ
  avgStake : ℚ
  prefMoneyline : ℚ
  prefSpread : ℚ
  prefTotal : ℚ
  prefParlay : ℚ
  promoSensitivity : ℚ
deriving DecidableEq

/-- One row of `dim_event` restricted to the fields the simulator reads
(scores, spread line, total line; `week` and `is_playoff` act at week level,
see `WeekSlot`). `spread_line` / `total_line` may be NULL (`Option`). -/
structure Event where
  eventId : ℕ
  homeScore : ℤ
  awayScore : ℤ
  spreadLine : Option ℚ
  totalLine : Option ℚ
deriving DecidableEq

def Event.totalPoints (e : Event) : ℤ := e.homeScore + e.awayScore

def Event.homeMargin (e : Event) : ℤ := e.homeScore - e.awayScore

def defaultEvent : Event := { eventId := 0, homeScore := 0, awayScore := 0, spreadLine := none, totalLine := none }

/-- One `(season, week)` key of `week_keys`, with the events of that week
(`events_by_week[wk]`); only the in-season week number is read by the
simulator (playoff scaling tests `week >= 19`). -/
structure WeekSlot where
  week : ℕ
  events : List Event
deriving DecidableEq

/-- The per-customer mutable loop state of `simulate_ledger`
(`weeks_active`, `last_bet_week_idx`, `has_churned`, `last_promo_week_idx`,
`promo_week_history`, `negative_net_streak`, `promo_effect_weeks_remaining`). -/
structure RunState where
  weeksActive : ℕ
  lastBetWeekIdx : Option ℕ
  hasChurned : Bool
  lastPromoWeekIdx : Option ℕ
  promoWeekHistory : List ℕ
  negativeNetStreak : ℕ
  promoEffect : ℕ
deriving DecidableEq

def initRunState : RunState where
  weeksActive := 0
  lastBetWeekIdx := none
  hasChurned := false
  lastPromoWeekIdx := none
  promoWeekHistory := []
  negativeNetStreak := 0
  promoEffect := 0

/-- The inactivity test `last_bet_week_idx is not None and (wk_idx - last_bet_week_idx) >= 2`
(Python ints may go negative, so the difference is taken in `ℤ`). -/
def inactiveGap2 (lastBet : Option ℕ) (wkIdx : ℕ) : Prop :=
  match lastBet with
  | some lb => (2 : ℤ) ≤ (wkIdx : ℤ) - (lb : ℤ)
  | none => False

instance (lastBet : Option ℕ) (wkIdx : ℕ) : Decidable (inactiveGap2 lastBet wkIdx) := by
  unfold inactiveGap2
  cases lastBet <;> infer_instance

/-- The hazard churn model: the body of the `weeks_active > 0` block of
`simulate_ledger` that computes `churn_prob` before the churn draw.
`expVal` stands for `math.exp(-alpha * weeks_active)` (supplied by the
oracle in the simulator). -/
def churnProb (cfg : ChurnConfig) (seg : Segment) (st : RunState) (wkIdx : ℕ) (expVal : ℚ) : ℚ :=
  let tenureMult := cfg.churnPlateauMult + (1 - cfg.churnPlateauMult) * expVal
  let p0 := cfg.baseWeeklyChurn.get seg * tenureMult
  let p1 :=
    if st.weeksActive ≤ 1 then p0 * cfg.earlyChurnMult.get seg
    else if 2 ≤ st.weeksActive ∧ st.weeksActive ≤ 6 then p0 * cfg.midChurnMult.get seg
    else if 7 ≤ st.weeksActive ∧ st.weeksActive ≤ 12 then p0 * cfg.tailChurnMult.get seg
    else p0
  let p2 := if inactiveGap2 st.lastBetWeekIdx wkIdx then p1 * cfg.inactivityMult else p1
  let p3 := if 2 ≤ st.negativeNetStreak then p2 * cfg.negativeNetMult else p2
  let p4 :=
    match st.lastPromoWeekIdx with
    | some lp =>
        if seg = .promoHunter ∧ ((wkIdx : ℤ) - (lp : ℤ)) ∈ cfg.promoHunterPostPromoWeeks then
          p3 * cfg.promoHunterPostPromoMult
        else p3
    | none => p3
  let p5 := if 0 < st.promoEffect then p4 * (if seg ≠ .promoHunter then 0.93 else 0.97) else p4
  clipQ p5 cfg.minChurn cfg.maxChurn

/-- Sample run state used by concrete witnesses. -/
def wRunState1 : RunState where
  weeksActive := 1
  lastBetWeekIdx := some 0
  hasChurned := false
  lastPromoWeekIdx := none
  promoWeekHistory := []
  negativeNetStreak := 0
  promoEffect := 0

/-- C1: whenever the churn model is evaluated (a customer with
`weeks_active > 0` checked for churn), the churn probability obtained after
all multiplicative modifiers — tenure decay, tenure band, inactivity,
negative streak, promo-hunter post-promo, promo-effect dampening — lies in
the closed interval `[min_churn, max_churn]` of the supplied configuration
(whose clamp bounds are taken well-formed, `min_churn ≤ max_churn`), for
every segment, run state, week index, and exponential-decay value. -/
theorem churnProb_mem_clamp (cfg : ChurnConfig) (seg : Segment) (st : RunState) (wkIdx : ℕ)
    (expVal : ℚ) (hwf : cfg.minChurn ≤ cfg.maxChurn) (_hwa : 0 < st.weeksActive) :
    cfg.minChurn ≤ churnProb cfg seg st wkIdx expVal ∧
      churnProb cfg seg st wkIdx expVal ≤ cfg.maxChurn := by
  simp only [churnProb]
  exact clipQ_mem _ _ _ hwf

theorem churnProb_mem_clamp_witness :
    defaultChurnConfig.minChurn ≤ churnProb defaultChurnConfig .casual wRunState1 3 (1/2) ∧
      churnProb defaultChurnConfig .casual wRunState1 3 (1/2) ≤ defaultChurnConfig.maxChurn :=
  churnProb_mem_clamp defaultChurnConfig .casual wRunState1 3 (1/2)
    (by with_unfolding_all decide) (by decide)

/-- The segment dicts of `simulate_ledger` that gate promotions
(`promo_eligibility`, `promo_base_rate`, `promo_cost_scale`; every segment
key is present, so the `.get` defaults are unreachable). -/
def promoEligibility : Segment → ℚ
  | .sharp => 0.45
  | .regular => 0.72
  | .casual => 0.68
  | .promoHunter => 0.40

def promoBaseRate : Segment → ℚ
  | .sharp => 0.050
  | .regular => 0.095
  | .casual => 0.080
  | .promoHunter => 0.080

def promoCostScale : Segment → ℚ
  | .sharp => 0.90
  | .regular => 1.00
  | .casual => 0.95
  | .promoHunter => 0.70

/-- The tenure-bucket promo-cost cap fraction of the promotion-decision step:
`stake * (0.14 if weeks_active < 8 else (0.09 if weeks_active < 20 else 0.06))`. -/
def promoTenureCap (wa : ℕ) : ℚ := if wa < 8 then 0.14 else if wa < 20 then 0.09 else 0.06

/-- `american_to_decimal`. -/
def americanToDecimal (odds : ℤ) : ℚ :=
  if 0 < odds then 1 + (odds : ℚ) / 100 else 1 + 100 / |(odds : ℚ)|

/-- All random draws of one simulation run, indexed exactly where the Python
code draws them (week index `wkIdx`, bet index `b` within the week, leg
index within the bet).  Draw-site parameters that only shape the sampled
distribution (Poisson rate, lognormal center, categorical weights) are
passed to the stream so the data flow of the source is preserved; the
verified properties hold for every stream, hence for the PRNG streams
seeded by `np.random.default_rng(seed)` / `random.seed(seed)`. -/
structure Oracle where
  expFn : ℚ → ℚ
  churnU : ℕ → ℚ
  poisson : ℕ → ℚ → ℕ
  betType : ℕ → ℕ → List ℚ → BetType
  stakeRaw : ℕ → ℕ → ℚ → ℚ
  eventPick : ℕ → ℕ → ℕ
  nLegsRaw : ℕ → ℕ → ℕ
  sampleKey : ℕ → ℕ → ℕ
  marketPick : ℕ → ℕ → ℕ → MarketType
  totalDefaultRaw : ℕ → ℕ → ℕ → ℚ
  spreadDefaultRaw : ℕ → ℕ → ℕ → ℚ
  selU : ℕ → ℕ → ℕ → ℚ
  lineShiftRaw : ℕ → ℕ → ℕ → ℚ
  oddsNoise : ℕ → ℕ → ℕ → ℚ
  oddsNoise2 : ℕ → ℕ → ℕ → ℚ
  promoU : ℕ → ℕ → ℚ
  promoGateU : ℕ → ℕ → ℚ
  promoFracU : ℕ → ℕ → ℚ
  promoDurRaw : ℕ → ℕ → ℕ
  startRaw : ℕ
  promoEligU : ℚ

/-- One row of the `leg_rows` table (ids omitted, `leg_no` kept). -/
structure LegRec where
  legNo : ℕ
  eventId : ℕ
  market : MarketType
  selection : Selection
  lineValue : Option ℚ
  americanOdds : ℤ
  decimalOdds : ℚ
  result : Result
deriving DecidableEq

/-- One row of `bet_rows` merged with its 1:1 `cost_rows` row, plus the
bookkeeping fields `weekIdx` / `weeksActive` and the bet's legs inline. -/
structure BetRec where
  customerId : ℕ
  weekIdx : ℕ
  weeksActive : ℕ
  betType : BetType
  stake : ℚ
  avgOdds : ℚ
  grossPayout : ℚ
  status : Result
  legs : List LegRec
  promoCost : ℚ
  paymentFee : ℚ
  tax : ℚ
deriving DecidableEq

/-- `net_profit = gross_profit - promo_cost - payment_fee - tax` of a bet. -/
def BetRec.netProfit (b : BetRec) : ℚ :=
  (b.stake - b.grossPayout) - b.promoCost - b.paymentFee - b.tax

/-- The within-week mutable variables of the bet loop
(`week_net_profit`, `promo_given_this_week`) together with the customer-level
variables the bet loop may update (`last_promo_week_idx`,
`promo_week_history`, `promo_effect_weeks_remaining`, `last_bet_week_idx`). -/
structure WeekCtx where
  weekNet : ℚ
  promoGiven : Bool
  lastPromoWeekIdx : Option ℕ
  promoHistory : List ℕ
  promoEffect : ℕ
  lastBetWeekIdx : Option ℕ
deriving DecidableEq

/-- The loop-invariant inputs of one bet of one week. -/
structure BetEnv where
  c : Customer
  o : Oracle
  promoEligible : Bool
  wkIdx : ℕ
  weeksActive : ℕ
  negStreak : ℕ
  events : List Event

/-- Settlement of one leg (the inner `for leg_no, ev in enumerate(leg_events)`
body): market resolution, NULL-line synthesis, selection with
favorite/over bias, price with bounded noise, win/lose/push settlement.
For parlays the per-leg market is drawn from
`["moneyline", "spread", "total"]` (the `[0.25, 0.45, 0.30]` weights only
shape the draw's distribution).  The Python `round` rounds half-to-even
while `round : ℚ → ℤ` rounds half up; they agree except at exact
half-integers and no verified property reads a rounded value. -/
def settleLeg (E : BetEnv) (b legIdx : ℕ) (betType : BetType) (ev : Event) : LegRec :=
  let o := E.o
  let market : MarketType :=
    match betType with
    | .parlay => o.marketPick E.wkIdx b legIdx
    | .moneyline => .moneyline
    | .spread => .spread
    | .total => .total
  let totalLine : ℚ :=
    match ev.totalLine with
    | some t => t
    | none => clipQ (43 + o.totalDefaultRaw E.wkIdx b legIdx) 31 59
  let spreadLine : ℚ :=
    match ev.spreadLine with
    | some s => s
    | none => clipQ (o.spreadDefaultRaw E.wkIdx b legIdx) (-14) 14
  match market with
  | .spread =>
    let favorite : Selection := if spreadLine < 0 then .home else .away
    let selection : Selection :=
      if o.selU E.wkIdx b legIdx < 0.57 then favorite
      else if favorite = .home then .away else .home
    let shift := clipQ (o.lineShiftRaw E.wkIdx b legIdx) (-1.5) 1.5
    let betLine := if selection = .home then spreadLine + shift else -spreadLine + shift
    let marginVsLine :=
      if selection = .home then (ev.homeMargin : ℚ) + betLine else -(ev.homeMargin : ℚ) + betLine
    let settled : Result :=
      if 0 < marginVsLine then .win else if marginVsLine < 0 then .lose else .push
    let odds : ℤ := clipZ (round ((-112 : ℚ) + o.oddsNoise E.wkIdx b legIdx)) (-145) 116
    { legNo := legIdx + 1, eventId := ev.eventId, market := market, selection := selection,
      lineValue := some betLine, americanOdds := odds, decimalOdds := americanToDecimal odds,
      result := settled }
  | .total =>
    let selection : Selection := if o.selU E.wkIdx b legIdx < 0.56 then .over else .under
    let betLine := totalLine + clipQ (o.lineShiftRaw E.wkIdx b legIdx) (-1.8) 1.8
    let delta := (ev.totalPoints : ℚ) - betLine
    let settled : Result :=
      if selection = .over then (if 0 < delta then .win else if delta < 0 then .lose else .push)
      else (if delta < 0 then .win else if 0 < delta then .lose else .push)
    let odds : ℤ := clipZ (round ((-114 : ℚ) + o.oddsNoise E.wkIdx b legIdx)) (-155) 120
    { legNo := legIdx + 1, eventId := ev.eventId, market := market, selection := selection,
      lineValue := some betLine, americanOdds := odds, decimalOdds := americanToDecimal odds,
      result := settled }
  | .moneyline =>
    let favorite : Selection := if spreadLine < 0 then .home else .away
    let selection : Selection :=
      if o.selU E.wkIdx b legIdx < 0.58 then favorite
      else if favorite = .home then .away else .home
    let absSpread := |spreadLine|
    let favOdds : ℤ :=
      clipZ (round ((-140 : ℚ) - absSpread * 18 + o.oddsNoise E.wkIdx b legIdx)) (-395) (-113)
    let dogOdds : ℤ :=
      clipZ (round ((109 : ℚ) + absSpread * 19 + o.oddsNoise2 E.wkIdx b legIdx)) 100 315
    let odds := if selection = favorite then favOdds else dogOdds
    let settled : Result :=
      if selection = .home then (if 0 < ev.homeMargin then .win else .lose)
      else (if 0 < ev.homeMargin then .lose else .win)
    { legNo := legIdx + 1, eventId := ev.eventId, market := market, selection := selection,
      lineValue := none, americanOdds := odds, decimalOdds := americanToDecimal odds,
      result := settled }

/-- Parlay settlement: payout `0` on any lost leg, otherwise
`stake * prod(dec if win else 1.0 for legs)`; status `push` only when all
legs pushed. -/
def settleParlayPayout (stake : ℚ) (lrs : List (Result × ℚ)) : ℚ × Result :=
  if lrs.any (fun rd => rd.1 = Result.lose) then (0, Result.lose)
  else
    (stake * lrs.foldl (fun m rd => m * (if rd.1 = Result.win then rd.2 else 1)) 1,
     if lrs.all (fun rd => rd.1 = Result.push) then Result.push else Result.win)

/-- `np.mean` of the legs' decimal odds. -/
def meanOdds (lrs : List (Result × ℚ)) : ℚ := (lrs.map (fun rd => rd.2)).sum / (lrs.length : ℚ)

/-- The promo-cost attachment of the promotion-decision step: a clipped
fraction `frac` of stake scaled by the tenure cost multiplier when
triggered, then `promo_cost = min(promo_cost, stake * (0.14 | 0.09 | 0.06))`
by tenure bucket, and for triggered promo hunters additionally
`min(promo_cost, stake * 0.06)`. -/
def promoCostOf (trigger isPromoHunter : Bool) (stake frac tenureCostMult : ℚ) (wa : ℕ) : ℚ :=
  let pc0 := if trigger then stake * frac * tenureCostMult else 0
  let pc1 := min pc0 (stake * promoTenureCap wa)
  if trigger = true ∧ isPromoHunter = true then min pc1 (stake * 0.06) else pc1

/-- Leg-event selection of one bet: a parlay samples
`min(n_legs, len(week_events))` events without replacement (`n_legs` drawn
from `{2, 3, 4}`; sampling is modeled as a rotation of the week's event
list followed by `take`, which yields that many distinct events), while a
single bet keeps the rows of the week whose `event_id` equals the picked
event's id (the picked event itself is otherwise used only for the omitted
`bet_datetime`). -/
def legEventsOf (o : Oracle) (wkIdx b : ℕ) (events : List Event) (betType : BetType) :
    List Event :=
  if betType = BetType.parlay then
    let nLegs := 2 + o.nLegsRaw wkIdx b % 3
    (events.rotate (o.sampleKey wkIdx b)).take (min nLegs events.length)
  else
    events.filter (fun e =>
      e.eventId = (events.getD (o.eventPick wkIdx b % events.length) defaultEvent).eventId)

/-- One iteration of the bet loop (`for _ in range(n_bets_week)`): market-type
choice, bounded log-normal stake, leg-event selection, settlement, the
promotion decision and promo-cost capping, fee and tax, and the context
updates (`week_net_profit`, promo bookkeeping, `last_bet_week_idx`). -/
def simBet (E : BetEnv) (b : ℕ) (ctx : WeekCtx) : WeekCtx × BetRec :=
  let o := E.o
  let weights := [E.c.prefMoneyline, E.c.prefSpread, E.c.prefTotal, E.c.prefParlay]
  let betType := o.betType E.wkIdx b weights
  let stake := clipQ (o.stakeRaw E.wkIdx b E.c.avgStake) 5 2000
  let legEvents := legEventsOf o E.wkIdx b E.events betType
  let legs := legEvents.enum.map (fun p => settleLeg E b p.1 betType p.2)
  let lrs := legs.map (fun L => (L.result, L.decimalOdds))
  let psa :=
    if betType = BetType.parlay then
      ((settleParlayPayout stake lrs).1, (settleParlayPayout stake lrs).2, meanOdds lrs)
    else
      match lrs with
      | [] => (0, Result.lose, 1)
      | rd :: _ =>
        (if rd.1 = Result.win then stake * rd.2 else if rd.1 = Result.push then stake else 0,
         rd.1, rd.2)
  let payout := psa.1
  let status := psa.2.1
  let avgOdds := psa.2.2
  let grossProfit := stake - payout
  let recent := (ctx.promoHistory.filter (fun p => (E.wkIdx : ℤ) - (p : ℤ) ≤ 8)).length
  let pp0 := promoBaseRate E.c.segment + 0.05 * E.c.promoSensitivity
  let pp1 := pp0 * max 0.25 (1 - 0.22 * (recent : ℚ))
  let pp2 := if 20 ≤ E.weeksActive then pp1 * 0.45 else if 8 ≤ E.weeksActive then pp1 * 0.70 else pp1
  let pp3 := if 2 ≤ E.negStreak then pp2 * 0.75 else pp2
  let promoProb := clipQ pp3 0.010 0.45
  let trigger0 : Bool :=
    E.promoEligible && (!ctx.promoGiven) && decide (o.promoU E.wkIdx b < promoProb)
  let trigger : Bool :=
    if trigger0 = true ∧ E.c.segment = Segment.promoHunter ∧ 10 ≤ E.weeksActive then
      decide (o.promoGateU E.wkIdx b < 0.45)
    else trigger0
  let tenureCostMult : ℚ := if E.weeksActive < 8 then 1.00 else if E.weeksActive < 20 then 0.45 else 0.30
  let pc := promoCostOf trigger (decide (E.c.segment = Segment.promoHunter)) stake
    (clipQ (o.promoFracU E.wkIdx b * E.c.promoSensitivity * promoCostScale E.c.segment) 0 0.20)
    tenureCostMult E.weeksActive
  let promoDur :=
    if E.c.segment ≠ Segment.promoHunter then 5 + o.promoDurRaw E.wkIdx b % 6
    else 3 + o.promoDurRaw E.wkIdx b % 3
  let ctxPromo :=
    if trigger then
      { ctx with lastPromoWeekIdx := some E.wkIdx,
                 promoHistory := ctx.promoHistory ++ [E.wkIdx],
                 promoGiven := true,
                 promoEffect := max ctx.promoEffect promoDur }
    else ctx
  let fee := stake * 0.012
  let tax := max 0 grossProfit * 0.03
  let net := grossProfit - pc - fee - tax
  ({ ctxPromo with weekNet := ctx.weekNet + net, lastBetWeekIdx := some E.wkIdx },
   { customerId := E.c.customerId, weekIdx := E.wkIdx, weeksActive := E.weeksActive,
     betType := betType, stake := stake, avgOdds := avgOdds, grossPayout := payout,
     status := status, legs := legs, promoCost := pc, paymentFee := fee, tax := tax })

/-- The bet loop itself: `remaining` bets starting at bet index `b`. -/
def simBetsAux (E : BetEnv) : ℕ → ℕ → WeekCtx → WeekCtx × List BetRec
  | _, 0, ctx => (ctx, [])
  | b, n + 1, ctx =>
    let res := simBet E b ctx
    let rest := simBetsAux E (b + 1) n res.1
    (rest.1, res.2 :: rest.2)

/-- The week's bet count: a Poisson draw at rate `weekly_lambda`
(`max(0.01, freq * intensity)`, intensity scaled to `0.75` from week 19 on,
boosted while a promo effect is active), coerced to at least one bet in the
customer's first active week (with the lambda floor `0.20`). -/
def weekBetCount (c : Customer) (o : Oracle) (w : WeekSlot) (wkIdx : ℕ) (st : RunState) : ℕ :=
  let intensity : ℚ := if 19 ≤ w.week then 0.75 else 1.0
  let lam0 := max 0.01 (c.freq * intensity)
  let lam :=
    if 0 < st.promoEffect then lam0 * (if c.segment ≠ Segment.promoHunter then 1.09 else 1.04)
    else lam0
  if st.weeksActive = 0 then max 1 (o.poisson wkIdx (max 0.20 lam)) else o.poisson wkIdx lam

/-- One iteration of the per-customer week loop of `simulate_ledger`: the
churn check (only once `weeks_active > 0`), the empty-week skip, the
Poisson bet count, the bet loop, and the week-end updates (negative-net
streak, promo-effect decrement, `weeks_active`). -/
def simWeek (c : Customer) (cfg : ChurnConfig) (o : Oracle) (elig : Bool) (w : WeekSlot)
    (wkIdx : ℕ) (st : RunState) : RunState × List BetRec :=
  if 0 < st.weeksActive ∧
      o.churnU wkIdx <
        churnProb cfg c.segment st wkIdx (o.expFn (-(cfg.alpha * (st.weeksActive : ℚ)))) then
    ({ st with hasChurned := true }, [])
  else if w.events.isEmpty then
    ({ st with weeksActive := st.weeksActive + 1 }, [])
  else
    let nBets := weekBetCount c o w wkIdx st
    if nBets = 0 then
      let ns :=
        if inactiveGap2 st.lastBetWeekIdx wkIdx then min (st.negativeNetStreak + 1) 6
        else st.negativeNetStreak
      ({ st with negativeNetStreak := ns, weeksActive := st.weeksActive + 1 }, [])
    else
      let E : BetEnv :=
        { c := c, o := o, promoEligible := elig, wkIdx := wkIdx, weeksActive := st.weeksActive,
          negStreak := st.negativeNetStreak, events := w.events }
      let ctx0 : WeekCtx :=
        { weekNet := 0, promoGiven := false, lastPromoWeekIdx := st.lastPromoWeekIdx,
          promoHistory := st.promoWeekHistory, promoEffect := st.promoEffect,
          lastBetWeekIdx := st.lastBetWeekIdx }
      let res := simBetsAux E 0 nBets ctx0
      ({ weeksActive := st.weeksActive + 1,
         lastBetWeekIdx := res.1.lastBetWeekIdx,
         hasChurned := false,
         lastPromoWeekIdx := res.1.lastPromoWeekIdx,
         promoWeekHistory := res.1.promoHistory,
         negativeNetStreak := if res.1.weekNet < 0 then min (st.negativeNetStreak + 1) 8 else 0,
         promoEffect := res.1.promoEffect - 1 }, res.2)

/-- The per-customer week loop `for wk_idx in range(start_idx, len(week_keys))`
with its churn `break`. -/
def simCustomerWeeks (c : Customer) (cfg : ChurnConfig) (o : Oracle) (elig : Bool) :
    List WeekSlot → ℕ → RunState → List BetRec
  | [], _, _ => []
  | w :: rest, wkIdx, st =>
    if st.hasChurned then []
    else
      let res := simWeek c cfg o elig w wkIdx st
      res.2 ++ simCustomerWeeks c cfg o elig rest (wkIdx + 1) res.1

/-- One customer of `simulate_ledger`: random start week
(`rng.integers(0, max(1, len(week_keys) - 24))`, modeled as a remainder),
the once-per-customer promo-eligibility draw, then the week loop from the
start week with fresh run state. -/
def simulateCustomer (cfg : ChurnConfig) (weeks : List WeekSlot) (o : Oracle) (c : Customer) :
    List BetRec :=
  let startIdx := o.startRaw % max 1 (weeks.length - 24)
  let elig := decide (o.promoEligU < promoEligibility c.segment)
  simCustomerWeeks c cfg o elig (weeks.drop startIdx) startIdx initRunState

/-- The full ledger: each customer is simulated independently with its own
oracle (the per-customer draws of the seeded streams); the bet/leg/cost
rows are concatenated. -/
def simulateLedger (cfg : ChurnConfig) (weeks : List WeekSlot) (oracleOf : ℕ → Oracle)
    (customers : List Customer) : List BetRec :=
  customers.flatMap (fun c => simulateCustomer cfg weeks (oracleOf c.customerId) c)

/-! ### Emission machinery: every emitted bet row comes from `simBet` -/

theorem promoCostOf_le_cap (t ph : Bool) (s f m : ℚ) (wa : ℕ) :
    promoCostOf t ph s f m wa ≤ s * promoTenureCap wa := by
  simp only [promoCostOf]
  by_cases h : t = true ∧ ph = true
  · rw [if_pos h]
    exact le_trans (min_le_left _ _) (min_le_right _ _)
  · rw [if_neg h]
    exact min_le_right _ _

theorem simBetsAux_mem {P : BetRec → Prop} (E : BetEnv)
    (h : ∀ b ctx, P (simBet E b ctx).2) :
    ∀ n b ctx, ∀ r ∈ (simBetsAux E b n ctx).2, P r := by
  intro n
  induction n with
  | zero => intro b ctx r hr; simp [simBetsAux] at hr
  | succ n ih =>
    intro b ctx r hr
    simp only [simBetsAux, List.mem_cons] at hr
    rcases hr with rfl | hr
    · exact h b ctx
    · exact ih _ _ r hr

theorem simWeek_mem {P : BetRec → Prop} (c : Customer) (cfg : ChurnConfig) (o : Oracle)
    (elig : Bool) (w : WeekSlot) (wkIdx : ℕ) (st : RunState)
    (h : ∀ wa ns b ctx,
        P (simBet { c := c, o := o, promoEligible := elig, wkIdx := wkIdx,
                    weeksActive := wa, negStreak := ns, events := w.events } b ctx).2) :
    ∀ r ∈ (simWeek c cfg o elig w wkIdx st).2, P r := by
  intro r hr
  simp only [simWeek] at hr
  split at hr
  · simp at hr
  · split at hr
    · simp at hr
    · split at hr
      · simp at hr
      · exact simBetsAux_mem _ (fun b ctx => h st.weeksActive st.negativeNetStreak b ctx) _ _ _ r hr

theorem simCustomerWeeks_mem {P : BetRec → Prop} (c : Customer) (cfg : ChurnConfig)
    (o : Oracle) (elig : Bool) (R : WeekSlot → Prop)
    (h : ∀ w, R w → ∀ wkIdx wa ns b ctx,
        P (simBet { c := c, o := o, promoEligible := elig, wkIdx := wkIdx,
                    weeksActive := wa, negStreak := ns, events := w.events } b ctx).2) :
    ∀ ws wkIdx st, (∀ w ∈ ws, R w) →
      ∀ r ∈ simCustomerWeeks c cfg o elig ws wkIdx st, P r := by
  intro ws
  induction ws with
  | nil => intro wkIdx st _ r hr; simp [simCustomerWeeks] at hr
  | cons w rest ih =>
    intro wkIdx st hR r hr
    simp only [simCustomerWeeks] at hr
    split at hr
    · simp at hr
    · simp only [List.mem_append] at hr
      rcases hr with hr | hr
      · exact simWeek_mem c cfg o elig w wkIdx st (h w (hR w (by simp)) wkIdx) r hr
      · exact ih (wkIdx + 1) _ (fun x hx => hR x (by simp [hx])) r hr

theorem simulateLedger_mem {P : BetRec → Prop} (cfg : ChurnConfig) (weeks : List WeekSlot)
    (oracleOf : ℕ → Oracle) (customers : List Customer) (R : WeekSlot → Prop)
    (hW : ∀ w ∈ weeks, R w)
    (h : ∀ (c : Customer) (o : Oracle) (elig : Bool) (w : WeekSlot), R w →
        ∀ wkIdx wa ns b ctx,
          P (simBet { c := c, o := o, promoEligible := elig, wkIdx := wkIdx,
                      weeksActive := wa, negStreak := ns, events := w.events } b ctx).2) :
    ∀ r ∈ simulateLedger cfg weeks oracleOf customers, P r := by
  intro r hr
  simp only [simulateLedger, List.mem_flatMap] at hr
  obtain ⟨c, _, hr⟩ := hr
  simp only [simulateCustomer] at hr
  exact simCustomerWeeks_mem c cfg _ _ R (h c _ _) _ _ _
    (fun x hx => hW x (List.drop_subset _ _ hx)) r hr

/-! ### C10: stakes are clipped into [5, 2000] -/

theorem simBet_stake_bounds (E : BetEnv) (b : ℕ) (ctx : WeekCtx) :
    5 ≤ (simBet E b ctx).2.stake ∧ (simBet E b ctx).2.stake ≤ 2000 := by
  have h : (simBet E b ctx).2.stake = clipQ (E.o.stakeRaw E.wkIdx b E.c.avgStake) 5 2000 := rfl
  rw [h]
  exact clipQ_mem _ _ _ (by norm_num)

/-- C10: every bet emitted by the ledger simulator — for every customer,
week, oracle (hence seed), and configuration — has a stake in the closed
interval `[5, 2000]`, the bounds of the clipped log-normal stake draw. -/
theorem stake_in_sane_range (cfg : ChurnConfig) (weeks : List WeekSlot) (oracleOf : ℕ → Oracle)
    (customers : List Customer) :
    ∀ r ∈ simulateLedger cfg weeks oracleOf customers, 5 ≤ r.stake ∧ r.stake ≤ 2000 := by
  exact simulateLedger_mem cfg weeks oracleOf customers (fun _ => True) (fun _ _ => trivial)
    (fun c o elig w _ wkIdx wa ns b ctx => simBet_stake_bounds _ b ctx)

/-! ### C4: promo cost never exceeds the tenure-bucket cap times stake -/

theorem simBet_promo_cap (E : BetEnv) (b : ℕ) (ctx : WeekCtx) :
    (simBet E b ctx).2.promoCost ≤
      (simBet E b ctx).2.stake * promoTenureCap (simBet E b ctx).2.weeksActive := by
  exact promoCostOf_le_cap _ _ _ _ _ _

/-- C4: for every bet emitted by the ledger simulator, the attached
promotional cost is at most the stake times the tenure-bucket cap fraction
(`0.14` below 8 weeks of tenure, `0.09` below 20, `0.06` beyond) in effect
for the betting customer's tenure at that bet, for every customer, week,
oracle, and configuration. -/
theorem promo_cost_le_tenure_cap (cfg : ChurnConfig) (weeks : List WeekSlot)
    (oracleOf : ℕ → Oracle) (customers : List Customer) :
    ∀ r ∈ simulateLedger cfg weeks oracleOf customers,
      r.promoCost ≤ r.stake * promoTenureCap r.weeksActive := by
  exact simulateLedger_mem cfg weeks oracleOf customers (fun _ => True) (fun _ _ => trivial)
    (fun c o elig w _ wkIdx wa ns b ctx => simBet_promo_cap _ b ctx)

/-! ### Concrete fixtures used by witnesses and counterexamples -/

def wEvent1 : Event :=
  { eventId := 1, homeScore := 24, awayScore := 10, spreadLine := some (-3), totalLine := some 40 }

def wEvent2 : Event :=
  { eventId := 2, homeScore := 10, awayScore := 20, spreadLine := some 2, totalLine := some 45 }

/-- A calendar week holding two events (distinct event ids). -/
def wWeek2 : WeekSlot := { week := 1, events := [wEvent1, wEvent2] }

/-- A calendar week holding a single event (like a Super Bowl week). -/
def wWeek1 : WeekSlot := { week := 1, events := [wEvent1] }

def wCustomer : Customer :=
  { customerId := 1, segment := .casual, freq := 1, avgStake := 50, prefMoneyline := 0.3,
    prefSpread := 0.35, prefTotal := 0.25, prefParlay := 0.1, promoSensitivity := 0.5 }

/-- A draw stream that makes the single simulated week place exactly one
parlay bet: the churn and promo uniforms are `1` (above every clamped
probability), the Poisson draw is `1`, and the bet-type choice is `parlay`. -/
def wOracleParlay : Oracle where
  expFn := fun _ => 1/2
  churnU := fun _ => 1
  poisson := fun _ _ => 1
  betType := fun _ _ _ => .parlay
  stakeRaw := fun _ _ _ => 100
  eventPick := fun _ _ => 0
  nLegsRaw := fun _ _ => 0
  sampleKey := fun _ _ => 0
  marketPick := fun _ _ _ => .spread
  totalDefaultRaw := fun _ _ _ => 0
  spreadDefaultRaw := fun _ _ _ => 0
  selU := fun _ _ _ => 0
  lineShiftRaw := fun _ _ _ => 0
  oddsNoise := fun _ _ _ => 0
  oddsNoise2 := fun _ _ _ => 0
  promoU := fun _ _ => 1
  promoGateU := fun _ _ => 1
  promoFracU := fun _ _ => 0
  promoDurRaw := fun _ _ => 0
  startRaw := 0
  promoEligU := 1

theorem getD_mem_of_lt {α : Type} :
    ∀ (l : List α) (n : ℕ) (d : α), n < l.length → l.getD n d ∈ l
  | [], n, _, h => absurd h (Nat.not_lt_zero n)
  | _ :: _, 0, _, _ => List.mem_cons_self _ _
  | _ :: tl, n + 1, d, h =>
    List.mem_cons_of_mem _ (getD_mem_of_lt tl n d (Nat.lt_of_succ_lt_succ h))

def defaultBetRec : BetRec :=
  { customerId := 0, weekIdx := 0, weeksActive := 0, betType := .moneyline, stake := 0,
    avgOdds := 0, grossPayout := 0, status := .lose, legs := [], promoCost := 0,
    paymentFee := 0, tax := 0 }

/-- The ledger of one customer over the two-event single-week calendar. -/
def wLedgerParlay : List BetRec :=
  simulateLedger defaultChurnConfig [wWeek2] (fun _ => wOracleParlay) [wCustomer]

def wBetParlay : BetRec := wLedgerParlay.getD 0 defaultBetRec

theorem wBetParlay_mem : wBetParlay ∈ wLedgerParlay :=
  getD_mem_of_lt wLedgerParlay 0 defaultBetRec (by with_unfolding_all decide)

/-! ### C2: parlay payout formula -/

theorem foldl_mul_map_prod {α : Type} (f : α → ℚ) :
    ∀ (l : List α) (a : ℚ), l.foldl (fun m x => m * f x) a = a * (l.map f).prod := by
  intro l
  induction l with
  | nil => intro a; simp
  | cons x xs ih => intro a; simp [ih, mul_assoc]

theorem prod_ite_win_filter :
    ∀ lrs : List (Result × ℚ),
      (lrs.map (fun rd => if rd.1 = Result.win then rd.2 else 1)).prod =
        ((lrs.filter (fun rd => rd.1 = Result.win)).map (fun rd => rd.2)).prod := by
  intro lrs
  induction lrs with
  | nil => simp
  | cons rd tl ih => by_cases h : rd.1 = Result.win <;> simp [List.filter_cons, h, ih]

/-- The parlay settlement lines of `simulate_ledger`: zero payout on any
lost leg, otherwise stake times the product over legs of
(decimal odds if won, `1.0` if pushed). -/
theorem settleParlayPayout_spec (stake : ℚ) (lrs : List (Result × ℚ)) :
    ((∃ rd ∈ lrs, rd.1 = Result.lose) → (settleParlayPayout stake lrs).1 = 0) ∧
    ((∀ rd ∈ lrs, rd.1 ≠ Result.lose) →
      (settleParlayPayout stake lrs).1 =
        stake * ((lrs.filter (fun rd => rd.1 = Result.win)).map (fun rd => rd.2)).prod) := by
  have hany : (lrs.any fun rd => decide (rd.1 = Result.lose)) = true ↔
      ∃ rd ∈ lrs, rd.1 = Result.lose := by
    simp [List.any_eq_true]
  unfold settleParlayPayout
  by_cases h : ∃ rd ∈ lrs, rd.1 = Result.lose
  · rw [if_pos (hany.mpr h)]
    refine ⟨fun _ => rfl, fun hall => ?_⟩
    obtain ⟨rd, hrd, hl⟩ := h
    exact absurd hl (hall rd hrd)
  · rw [if_neg (fun hc => h (hany.mp hc))]
    refine ⟨fun hex => (h hex).elim, fun _ => ?_⟩
    simp only [foldl_mul_map_prod (fun rd => if rd.1 = Result.win then rd.2 else 1) lrs 1,
      one_mul, prod_ite_win_filter]

theorem map_pair_filter_win (legs : List LegRec) :
    (((legs.map (fun L => (L.result, L.decimalOdds))).filter
        (fun rd => rd.1 = Result.win)).map (fun rd => rd.2)) =
      ((legs.filter (fun L => L.result = Result.win)).map (fun L => L.decimalOdds)) := by
  induction legs with
  | nil => rfl
  | cons L tl ih => by_cases h : L.result = Result.win <;> simp [List.filter_cons, h, ih]

theorem simBet_parlay_spec (E : BetEnv) (b : ℕ) (ctx : WeekCtx)
    (hp : (simBet E b ctx).2.betType = BetType.parlay) :
    ((∃ L ∈ (simBet E b ctx).2.legs, L.result = Result.lose) →
        (simBet E b ctx).2.grossPayout = 0) ∧
    ((∀ L ∈ (simBet E b ctx).2.legs, L.result ≠ Result.lose) →
      (simBet E b ctx).2.grossPayout =
        (simBet E b ctx).2.stake *
          (((simBet E b ctx).2.legs.filter (fun L => L.result = Result.win)).map
            (fun L => L.decimalOdds)).prod) := by
  have hb : E.o.betType E.wkIdx b
      [E.c.prefMoneyline, E.c.prefSpread, E.c.prefTotal, E.c.prefParlay] = BetType.parlay := hp
  have hpay : (simBet E b ctx).2.grossPayout =
      (settleParlayPayout (simBet E b ctx).2.stake
        ((simBet E b ctx).2.legs.map (fun L => (L.result, L.decimalOdds)))).1 := by
    simp only [simBet, hb]
    simp
  have hs := settleParlayPayout_spec (simBet E b ctx).2.stake
    ((simBet E b ctx).2.legs.map (fun L => (L.result, L.decimalOdds)))
  constructor
  · intro hex
    rw [hpay]
    refine hs.1 ?_
    obtain ⟨L, hL, hres⟩ := hex
    exact ⟨(L.result, L.decimalOdds), List.mem_map_of_mem _ hL, hres⟩
  · intro hall
    rw [hpay]
    rw [hs.2 ?_, map_pair_filter_win]
    intro rd hrd
    obtain ⟨L, hL, rfl⟩ := List.mem_map.mp hrd
    exact hall L hL

/-- C2: for every settled parlay bet in the emitted ledger, the gross payout
is `0` if some leg settled `lose`, and otherwise equals the stake times the
product of the decimal odds of the winning legs (pushed legs contribute a
multiplicative factor `1`). -/
theorem parlay_payout_spec (cfg : ChurnConfig) (weeks : List WeekSlot) (oracleOf : ℕ → Oracle)
    (customers : List Customer) :
    ∀ r ∈ simulateLedger cfg weeks oracleOf customers, r.betType = BetType.parlay →
      ((∃ L ∈ r.legs, L.result = Result.lose) → r.grossPayout = 0) ∧
      ((∀ L ∈ r.legs, L.result ≠ Result.lose) →
        r.grossPayout =
          r.stake * ((r.legs.filter (fun L => L.result = Result.win)).map
            (fun L => L.decimalOdds)).prod) := by
  exact simulateLedger_mem cfg weeks oracleOf customers (fun _ => True) (fun _ _ => trivial)
    (fun c o elig w _ wkIdx wa ns b ctx hp => simBet_parlay_spec _ b ctx hp)

theorem parlay_payout_spec_witness :
    wBetParlay.grossPayout =
      wBetParlay.stake * ((wBetParlay.legs.filter (fun L => L.result = Result.win)).map
        (fun L => L.decimalOdds)).prod :=
  (parlay_payout_spec defaultChurnConfig [wWeek2] (fun _ => wOracleParlay) [wCustomer]
      wBetParlay wBetParlay_mem (by with_unfolding_all decide)).2
    (by with_unfolding_all decide)

theorem stake_in_sane_range_witness : 5 ≤ wBetParlay.stake ∧ wBetParlay.stake ≤ 2000 :=
  stake_in_sane_range defaultChurnConfig [wWeek2] (fun _ => wOracleParlay) [wCustomer]
    wBetParlay wBetParlay_mem

theorem promo_cost_le_tenure_cap_witness :
    wBetParlay.promoCost ≤ wBetParlay.stake * promoTenureCap wBetParlay.weeksActive :=
  promo_cost_le_tenure_cap defaultChurnConfig [wWeek2] (fun _ => wOracleParlay) [wCustomer]
    wBetParlay wBetParlay_mem

/-! ### C3: churn is absorbing -/

theorem simCustomerWeeks_absorbed (c : Customer) (cfg : ChurnConfig) (o : Oracle) (elig : Bool) :
    ∀ (ws : List WeekSlot) (wkIdx : ℕ) (st : RunState),
      st.hasChurned = true → simCustomerWeeks c cfg o elig ws wkIdx st = [] := by
  intro ws wkIdx st h
  cases ws with
  | nil => rfl
  | cons w rest => simp [simCustomerWeeks, h]

/-- C3: within a run, once the churn draw succeeds for a customer (the state
that week is non-churned with positive tenure and the churn uniform falls
below the hazard probability), no bet row is emitted for that customer at
that week or any later simulated week: churn is absorbing and terminal. -/
theorem churn_is_absorbing (c : Customer) (cfg : ChurnConfig) (o : Oracle) (elig : Bool)
    (ws : List WeekSlot) (wkIdx : ℕ) (st : RunState)
    (hnc : st.hasChurned = false) (hwa : 0 < st.weeksActive)
    (hdraw : o.churnU wkIdx <
      churnProb cfg c.segment st wkIdx (o.expFn (-(cfg.alpha * (st.weeksActive : ℚ))))) :
    simCustomerWeeks c cfg o elig ws wkIdx st = [] := by
  cases ws with
  | nil => rfl
  | cons w rest =>
    simp only [simCustomerWeeks, hnc]
    have hcw : simWeek c cfg o elig w wkIdx st = ({ st with hasChurned := true }, []) := by
      simp only [simWeek]
      rw [if_pos ⟨hwa, hdraw⟩]
    rw [if_neg (by simp), hcw]
    exact (List.nil_append _).trans (simCustomerWeeks_absorbed c cfg o elig rest (wkIdx + 1) _ rfl)

/-- A draw stream whose churn uniform is `0`, so a churn check always
succeeds (the clamped hazard probability is at least `min_churn > 0`). -/
def wOracleChurn : Oracle := { wOracleParlay with churnU := fun _ => 0 }

theorem churn_is_absorbing_witness :
    simCustomerWeeks wCustomer defaultChurnConfig wOracleChurn false [wWeek2] 5 wRunState1 = [] :=
  churn_is_absorbing wCustomer defaultChurnConfig wOracleChurn false [wWeek2] 5 wRunState1
    rfl (by decide) (by with_unfolding_all decide)

/-! ### C9: leg counts (1 for singles; min(n_legs, events) for parlays) -/

theorem filter_id_singleton :
    ∀ (l : List Event) (x : Event), x ∈ l → (l.map Event.eventId).Nodup →
      (l.filter (fun e => e.eventId = x.eventId)).length = 1 := by
  intro l
  induction l with
  | nil => intro x hx; cases hx
  | cons a tl ih =>
    intro x hx hnd
    simp only [List.map_cons, List.nodup_cons] at hnd
    rcases List.mem_cons.mp hx with rfl | hx
    · have htl : tl.filter (fun e => e.eventId = x.eventId) = [] := by
        refine List.filter_eq_nil_iff.mpr (fun e he => ?_)
        simp only [decide_eq_true_eq]
        intro heq
        exact hnd.1 (heq ▸ List.mem_map_of_mem Event.eventId he)
      rw [List.filter_cons, if_pos (by simp)]
      simp [htl]
    · have hne : ¬ a.eventId = x.eventId := by
        intro heq
        exact hnd.1 (heq ▸ List.mem_map_of_mem Event.eventId hx)
      rw [List.filter_cons, if_neg (by simpa using hne)]
      exact ih x hx hnd.2

theorem legEventsOf_parlay_len (o : Oracle) (wkIdx b : ℕ) (events : List Event)
    (h2 : 2 ≤ events.length) :
    2 ≤ (legEventsOf o wkIdx b events BetType.parlay).length ∧
      (legEventsOf o wkIdx b events BetType.parlay).length ≤ 4 := by
  simp only [legEventsOf, eq_self_iff_true, if_true, List.length_take, List.length_rotate]
  have hr : o.nLegsRaw wkIdx b % 3 < 3 := Nat.mod_lt _ (by norm_num)
  omega

theorem legEventsOf_single_len (o : Oracle) (wkIdx b : ℕ) (events : List Event) (bt : BetType)
    (hbt : bt ≠ BetType.parlay) (hnodup : (events.map Event.eventId).Nodup)
    (h0 : 0 < events.length) :
    (legEventsOf o wkIdx b events bt).length = 1 := by
  simp only [legEventsOf, if_neg hbt]
  exact filter_id_singleton events _
    (getD_mem_of_lt events _ defaultEvent (Nat.mod_lt _ h0)) hnodup

theorem simBet_legs_len (E : BetEnv) (b : ℕ) (ctx : WeekCtx) :
    (simBet E b ctx).2.legs.length =
      (legEventsOf E.o E.wkIdx b E.events
        (E.o.betType E.wkIdx b
          [E.c.prefMoneyline, E.c.prefSpread, E.c.prefTotal, E.c.prefParlay])).length := by
  show ((legEventsOf E.o E.wkIdx b E.events _).enum.map _).length = _
  rw [List.length_map, List.enum_length]

theorem simBet_leg_count (E : BetEnv) (b : ℕ) (ctx : WeekCtx)
    (hnodup : (E.events.map Event.eventId).Nodup) (h2 : 2 ≤ E.events.length) :
    ((simBet E b ctx).2.betType = BetType.parlay →
      2 ≤ (simBet E b ctx).2.legs.length ∧ (simBet E b ctx).2.legs.length ≤ 4) ∧
    ((simBet E b ctx).2.betType ≠ BetType.parlay → (simBet E b ctx).2.legs.length = 1) := by
  have hbt : (simBet E b ctx).2.betType =
      E.o.betType E.wkIdx b
        [E.c.prefMoneyline, E.c.prefSpread, E.c.prefTotal, E.c.prefParlay] := rfl
  rw [hbt, simBet_legs_len]
  constructor
  · intro hp
    rw [hp]
    exact legEventsOf_parlay_len E.o E.wkIdx b E.events h2
  · intro hp
    exact legEventsOf_single_len E.o E.wkIdx b E.events _ hp hnodup (by omega)

/-- C9 (amended): on a calendar whose weeks have pairwise distinct event ids
and at least two events each, every emitted non-parlay bet has exactly one
leg and every emitted parlay bet has between 2 and 4 legs.  (Without the
two-events-per-week proviso a parlay in a week with a single event gets
`min(n_legs, 1) = 1` leg, see the counterexample.) -/
theorem bet_leg_count_amended (cfg : ChurnConfig) (weeks : List WeekSlot)
    (oracleOf : ℕ → Oracle) (customers : List Customer)
    (hW : ∀ w ∈ weeks, (w.events.map Event.eventId).Nodup ∧ 2 ≤ w.events.length) :
    ∀ r ∈ simulateLedger cfg weeks oracleOf customers,
      (r.betType = BetType.parlay → 2 ≤ r.legs.length ∧ r.legs.length ≤ 4) ∧
      (r.betType ≠ BetType.parlay → r.legs.length = 1) := by
  exact simulateLedger_mem cfg weeks oracleOf customers
    (fun w => (w.events.map Event.eventId).Nodup ∧ 2 ≤ w.events.length) hW
    (fun c o elig w hw wkIdx wa ns b ctx => simBet_leg_count _ b ctx hw.1 hw.2)

theorem bet_leg_count_amended_witness :
    2 ≤ wBetParlay.legs.length ∧ wBetParlay.legs.length ≤ 4 :=
  (bet_leg_count_amended defaultChurnConfig [wWeek2] (fun _ => wOracleParlay) [wCustomer]
      (by with_unfolding_all decide) wBetParlay wBetParlay_mem).1
    (by with_unfolding_all decide)

/-- The ledger of the same parlay-forcing stream over a calendar whose only
week has a single event: the emitted parlay has `min(n_legs, 1) = 1` leg. -/
def wLedgerParlay1 : List BetRec :=
  simulateLedger defaultChurnConfig [wWeek1] (fun _ => wOracleParlay) [wCustomer]

/-- C9 (counterexample): the claim `a parlay bet has between 2 and 4 legs`
fails on the code: with the one-event week `wWeek1` the ledger consists of
exactly one parlay bet carrying a single leg (`leg_sample_size =
min(n_legs, len(week_events)) = 1`), and `1 < 2`. -/
theorem parlay_single_leg_counterexample :
    wLedgerParlay1.map (fun r => (r.betType, r.legs.length)) = [(BetType.parlay, 1)] := by
  with_unfolding_all decide

/-! ### C8: the negative-net-streak update -/

theorem simBet_weekNet (E : BetEnv) (b : ℕ) (ctx : WeekCtx) :
    (simBet E b ctx).1.weekNet = ctx.weekNet + (simBet E b ctx).2.netProfit := rfl

theorem simBetsAux_weekNet (E : BetEnv) :
    ∀ (n b : ℕ) (ctx : WeekCtx),
      (simBetsAux E b n ctx).1.weekNet =
        ctx.weekNet + ((simBetsAux E b n ctx).2.map BetRec.netProfit).sum := by
  intro n
  induction n with
  | zero => intro b ctx; simp [simBetsAux]
  | succ n ih =>
    intro b ctx
    simp only [simBetsAux, List.map_cons, List.sum_cons]
    rw [ih, simBet_weekNet]
    ring

theorem simBetsAux_length (E : BetEnv) :
    ∀ (n b : ℕ) (ctx : WeekCtx), (simBetsAux E b n ctx).2.length = n := by
  intro n
  induction n with
  | zero => intro b ctx; rfl
  | succ n ih => intro b ctx; simp only [simBetsAux, List.length_cons, ih]

/-- C8 (amended): consider a week a non-churned customer passes through
(the churn draw does not fire).  The negative-net-streak update at week end
is: (a) in a week with no events, the streak is unchanged; (b) in a week
with events but zero bets, the streak is incremented by 1 capped at 6 when
the gap since the last bet-bearing week is at least 2, and unchanged
otherwise — it is not reset even though the week's net profit is vacuously
zero; (c) in a week with at least one bet, the streak is reset to 0 when
the week's net profit (the sum of the emitted bets' net profits) is
non-negative and otherwise incremented by 1 capped at 8. -/
theorem neg_streak_update_amended (c : Customer) (cfg : ChurnConfig) (o : Oracle) (elig : Bool)
    (w : WeekSlot) (wkIdx : ℕ) (st : RunState)
    (hnc : ¬ (0 < st.weeksActive ∧ o.churnU wkIdx <
      churnProb cfg c.segment st wkIdx (o.expFn (-(cfg.alpha * (st.weeksActive : ℚ)))))) :
    (w.events.isEmpty = true →
      (simWeek c cfg o elig w wkIdx st).1.negativeNetStreak = st.negativeNetStreak) ∧
    (w.events.isEmpty = false → (simWeek c cfg o elig w wkIdx st).2 = [] →
      (simWeek c cfg o elig w wkIdx st).1.negativeNetStreak =
        if inactiveGap2 st.lastBetWeekIdx wkIdx then min (st.negativeNetStreak + 1) 6
        else st.negativeNetStreak) ∧
    (w.events.isEmpty = false → (simWeek c cfg o elig w wkIdx st).2 ≠ [] →
      (simWeek c cfg o elig w wkIdx st).1.negativeNetStreak =
        if ((simWeek c cfg o elig w wkIdx st).2.map BetRec.netProfit).sum < 0
        then min (st.negativeNetStreak + 1) 8 else 0) := by
  simp only [simWeek, if_neg hnc]
  by_cases he : w.events.isEmpty
  · rw [if_pos he]
    exact ⟨fun _ => rfl, fun hf => absurd he (by simp [hf]), fun hf => absurd he (by simp [hf])⟩
  · rw [if_neg he]
    by_cases hnb : weekBetCount c o w wkIdx st = 0
    · rw [if_pos hnb]
      exact ⟨fun ht => absurd ht (by simpa using he), fun _ _ => rfl, fun _ hne => absurd rfl hne⟩
    · rw [if_neg hnb]
      refine ⟨fun ht => absurd ht (by simpa using he), fun _ hemp => ?_, fun _ _ => ?_⟩
      · exact absurd (by rw [← simBetsAux_length
          { c := c, o := o, promoEligible := elig, wkIdx := wkIdx,
            weeksActive := st.weeksActive, negStreak := st.negativeNetStreak, events := w.events }
          (weekBetCount c o w wkIdx st) 0
          { weekNet := 0, promoGiven := false, lastPromoWeekIdx := st.lastPromoWeekIdx,
            promoHistory := st.promoWeekHistory, promoEffect := st.promoEffect,
            lastBetWeekIdx := st.lastBetWeekIdx }, hemp]; rfl) hnb
      · have hw := simBetsAux_weekNet
          { c := c, o := o, promoEligible := elig, wkIdx := wkIdx,
            weeksActive := st.weeksActive, negStreak := st.negativeNetStreak, events := w.events }
          (weekBetCount c o w wkIdx st) 0
          { weekNet := 0, promoGiven := false, lastPromoWeekIdx := st.lastPromoWeekIdx,
            promoHistory := st.promoWeekHistory, promoEffect := st.promoEffect,
            lastBetWeekIdx := st.lastBetWeekIdx }
        simp only [zero_add] at hw
        simp only [hw]

/-- A draw stream with a zero Poisson draw: weeks place no bets. -/
def wOracleNoBets : Oracle := { wOracleParlay with poisson := fun _ _ => 0 }

/-- C8 (counterexample): the claim `at the end of every simulated week a
non-churned customer passes through, the streak resets to 0 when the
week's net profit is non-negative` fails on the code: at week index 2, in
a week with events but a zero bet-count draw (week net profit vacuously 0,
so the claim demands a reset to 0), a customer whose last bet-bearing week
was index 0 (gap 2) gets its streak incremented from 0 to
`min(0 + 1, 6) = 1`. -/
theorem neg_streak_zero_bet_counterexample :
    (simWeek wCustomer defaultChurnConfig wOracleNoBets false wWeek2 2 wRunState1).2 = [] ∧
    wRunState1.negativeNetStreak = 0 ∧
    (simWeek wCustomer defaultChurnConfig wOracleNoBets false wWeek2 2 wRunState1).1.negativeNetStreak = 1 := by
  refine ⟨?_, rfl, ?_⟩ <;> with_unfolding_all decide

theorem neg_streak_update_amended_witness :
    (simWeek wCustomer defaultChurnConfig wOracleNoBets false wWeek2 2 wRunState1).1.negativeNetStreak =
      if inactiveGap2 wRunState1.lastBetWeekIdx 2 then min (wRunState1.negativeNetStreak + 1) 6
      else wRunState1.negativeNetStreak :=
  (neg_streak_update_amended wCustomer defaultChurnConfig wOracleNoBets false wWeek2 2 wRunState1
      (by with_unfolding_all decide)).2.1 (by decide) (by with_unfolding_all decide)

/-! ### C7: the Monte Carlo harness's seed schedule -/

/-- The run loop of `monte_carlo_validation.main`: for `i in range(runs)`
the population is regenerated with `customer_seed = base + i` and the
ledger simulated with `ledger_seed = base + i`; runs whose resulting
ledger is empty are skipped (`emptyRun` abstracts the
`bets.empty or costs.empty` test of the generated run, which depends on
the numpy-distributed population), and every other run appends one row
carrying `run_id = i + 1` and the two seeds (the row's scalar metrics and
retention columns are computed from that run's ledger and omitted here). -/
def mcRows (runs baseCustomerSeed baseLedgerSeed : ℕ) (emptyRun : ℕ → Bool) :
    List (ℕ × ℕ × ℕ) :=
  ((List.range runs).filter (fun i => !(emptyRun i))).map
    (fun i => (i + 1, baseCustomerSeed + i, baseLedgerSeed + i))

/-- C7 (counterexample): the claim `run i uses seed = base_customer_seed + i
and seed = base_ledger_seed + i for i = 1..R` fails on the code: with one
run and base seeds 100 / 500 (and no run skipped), the single appended row
is `(run_id 1, 100, 500)` — run 1 uses the bases themselves, not
`(101, 501)`. -/
theorem mc_seed_offset_counterexample :
    mcRows 1 100 500 (fun _ => false) = [(1, 100, 500)] ∧
      (1, 100 + 1, 500 + 1) ∉ mcRows 1 100 500 (fun _ => false) := by
  decide

/-- C7 (amended): the harness performs runs `i = 1..R` such that run `i`
regenerates the population with seed `base_customer_seed + (i - 1)` and
simulates the ledger with seed `base_ledger_seed + (i - 1)` (equivalently,
offsets `0..R-1`), appending one metrics row per run when no run's ledger
is empty. -/
theorem mc_seed_offset_amended (runs baseC baseL : ℕ) (emptyRun : ℕ → Bool)
    (hne : ∀ i, emptyRun i = false) :
    mcRows runs baseC baseL emptyRun =
      (List.range runs).map (fun i => (i + 1, baseC + i, baseL + i)) ∧
    ∀ r, 1 ≤ r → r ≤ runs →
      (r, baseC + (r - 1), baseL + (r - 1)) ∈ mcRows runs baseC baseL emptyRun := by
  have hf : (List.range runs).filter (fun i => !(emptyRun i)) = List.range runs :=
    List.filter_eq_self.mpr (fun a _ => by simp [hne a])
  constructor
  · simp [mcRows, hf]
  · intro r h1 h2
    simp only [mcRows, hf, List.mem_map, List.mem_range]
    exact ⟨r - 1, by omega, by rw [Nat.sub_add_cancel h1]⟩

theorem mc_seed_offset_amended_witness :
    mcRows 2 100 500 (fun _ => false) =
      (List.range 2).map (fun i => (i + 1, 100 + i, 500 + i)) ∧
    (2, 100 + (2 - 1), 500 + (2 - 1)) ∈ mcRows 2 100 500 (fun _ => false) :=
  ⟨(mc_seed_offset_amended 2 100 500 (fun _ => false) (fun _ => rfl)).1,
   (mc_seed_offset_amended 2 100 500 (fun _ => false) (fun _ => rfl)).2 2 (by decide) (by decide)⟩

/-! ### C5 / C6: the calibration grid search -/

/-- The four retention checkpoints (`still_active_7d` ... `still_active_90d`). -/
inductive RetWindow
  | d7
  | d30
  | d60
  | d90
deriving DecidableEq

/-- The hard-coded per-segment retention target table of
`calibrate_churn_config`. -/
def calibTarget : Segment → RetWindow → ℚ
  | .sharp, .d7 => 0.72
  | .sharp, .d30 => 0.58
  | .sharp, .d60 => 0.42
  | .sharp, .d90 => 0.28
  | .regular, .d7 => 0.40
  | .regular, .d30 => 0.20
  | .regular, .d60 => 0.08
  | .regular, .d90 => 0.03
  | .casual, .d7 => 0.18
  | .casual, .d30 => 0.06
  | .casual, .d60 => 0.01
  | .casual, .d90 => 0.00
  | .promoHunter, .d7 => 0.14
  | .promoHunter, .d30 => 0.03
  | .promoHunter, .d60 => 0.00
  | .promoHunter, .d90 => 0.00

def allSegments : List Segment := [.sharp, .regular, .casual, .promoHunter]

def allWindows : List RetWindow := [.d7, .d30, .d60, .d90]

/-- The candidate score: the sum over (segment, window) of the squared
deviation of the achieved retention from the target (missing entries read
as `0.0` are the responsibility of the retention function `f`). -/
def scoreOf (f : ChurnConfig → Segment → RetWindow → ℚ) (cfg : ChurnConfig) : ℚ :=
  (allSegments.map (fun s =>
    (allWindows.map (fun k => (f cfg s k - calibTarget s k) ^ 2)).sum)).sum

/-- `itertools.product([0.95, 1.05], [0.9, 1.1], [0.9, 1.1], [2.3, 2.7])`:
base-rate scale, mid-multiplier scale, tail-multiplier scale, inactivity
multiplier — 16 combinations, rightmost factor fastest. -/
def calibGrid : List (ℚ × ℚ × ℚ × ℚ) :=
  [(0.95 : ℚ), 1.05].flatMap (fun b =>
    [(0.9 : ℚ), 1.1].flatMap (fun m =>
      [(0.9 : ℚ), 1.1].flatMap (fun t =>
        [(2.3 : ℚ), 2.7].map (fun ia => (b, m, t, ia)))))

/-- Derivation of a candidate config from the base config and one grid
cell: every `base_weekly_churn` entry is scaled by the base-rate scale; the
scaling loops over `mid_churn_mult` / `tail_churn_mult` iterate the dicts'
keys, which do not include `sharp`, so the stored `sharp` default is left
unscaled; `inactivity_mult` is replaced outright. -/
def applyScales (base : ChurnConfig) (g : ℚ × ℚ × ℚ × ℚ) : ChurnConfig :=
  { base with
    baseWeeklyChurn :=
      { sharp := base.baseWeeklyChurn.sharp * g.1,
        regular := base.baseWeeklyChurn.regular * g.1,
        casual := base.baseWeeklyChurn.casual * g.1,
        promoHunter := base.baseWeeklyChurn.promoHunter * g.1 },
    midChurnMult :=
      { base.midChurnMult with
        regular := base.midChurnMult.regular * g.2.1,
        casual := base.midChurnMult.casual * g.2.1,
        promoHunter := base.midChurnMult.promoHunter * g.2.1 },
    tailChurnMult :=
      { base.tailChurnMult with
        regular := base.tailChurnMult.regular * g.2.2.1,
        casual := base.tailChurnMult.casual * g.2.2.1,
        promoHunter := base.tailChurnMult.promoHunter * g.2.2.1 },
    inactivityMult := g.2.2.2 }

/-- `best_ret` starts as the empty dict; every lookup through
`.get(seg, {}).get(k, 0.0)` reads `0.0`. -/
def emptyRet : Segment → RetWindow → ℚ := fun _ _ => 0

/-- One iteration of the candidate loop: keep the incumbent unless the
candidate's score strictly improves; the incumbent score starts as
`float("inf")`, modeled as `none`, which every finite score beats. -/
def calibStep (f : ChurnConfig → Segment → RetWindow → ℚ)
    (acc : ChurnConfig × (Segment → RetWindow → ℚ) × Option ℚ) (cfg : ChurnConfig) :
    ChurnConfig × (Segment → RetWindow → ℚ) × Option ℚ :=
  match acc.2.2 with
  | none => (cfg, f cfg, some (scoreOf f cfg))
  | some bs => if scoreOf f cfg < bs then (cfg, f cfg, some (scoreOf f cfg)) else acc

/-- The grid search of `calibrate_churn_config` over an explicit grid.
`f` is the simulate-and-measure composite (`simulate_ledger` on the
sampled sub-population with the fixed seed, then
`compute_still_active_retention`), a deterministic function of the sample
and seed; the fold starts from a copy of the base config, the empty
retention dict, and an infinite best score. -/
def calibrateWith (grid : List (ℚ × ℚ × ℚ × ℚ))
    (f : ChurnConfig → Segment → RetWindow → ℚ) (base : ChurnConfig) :
    ChurnConfig × (Segment → RetWindow → ℚ) × Option ℚ :=
  (grid.map (applyScales base)).foldl (calibStep f) (base, emptyRet, none)

/-- `calibrate_churn_config` with its fixed 16-cell grid. -/
def calibrate (f : ChurnConfig → Segment → RetWindow → ℚ) (base : ChurnConfig) :
    ChurnConfig × (Segment → RetWindow → ℚ) × Option ℚ :=
  calibrateWith calibGrid f base

theorem calibStep_foldl_min (f : ChurnConfig → Segment → RetWindow → ℚ) :
    ∀ (l : List ChurnConfig) (bcfg : ChurnConfig) (bret : Segment → RetWindow → ℚ) (bs : ℚ),
      bret = f bcfg → bs = scoreOf f bcfg →
      ((l.foldl (calibStep f) (bcfg, bret, some bs)).1 = bcfg ∨
        (l.foldl (calibStep f) (bcfg, bret, some bs)).1 ∈ l) ∧
      (l.foldl (calibStep f) (bcfg, bret, some bs)).2.1 =
        f (l.foldl (calibStep f) (bcfg, bret, some bs)).1 ∧
      (l.foldl (calibStep f) (bcfg, bret, some bs)).2.2 =
        some (scoreOf f (l.foldl (calibStep f) (bcfg, bret, some bs)).1) ∧
      scoreOf f (l.foldl (calibStep f) (bcfg, bret, some bs)).1 ≤ bs ∧
      ∀ g ∈ l, scoreOf f (l.foldl (calibStep f) (bcfg, bret, some bs)).1 ≤ scoreOf f g := by
  intro l
  induction l with
  | nil =>
    intro bcfg bret bs hr hs
    subst hr; subst hs
    exact ⟨Or.inl rfl, rfl, rfl, le_refl _, by simp⟩
  | cons g gs ih =>
    intro bcfg bret bs hr hs
    by_cases hlt : scoreOf f g < bs
    · have hstep : calibStep f (bcfg, bret, some bs) g = (g, f g, some (scoreOf f g)) := by
        simp [calibStep, hlt]
      rw [List.foldl_cons, hstep]
      obtain ⟨h1, h2, h3, h4, h5⟩ := ih g (f g) (scoreOf f g) rfl rfl
      refine ⟨Or.inr ?_, h2, h3, h4.trans hlt.le, fun x hx => ?_⟩
      · rcases h1 with h1 | h1
        · rw [h1]; exact List.mem_cons_self _ _
        · exact List.mem_cons_of_mem _ h1
      · rcases List.mem_cons.mp hx with rfl | hx
        · exact h4
        · exact h5 x hx
    · have hstep : calibStep f (bcfg, bret, some bs) g = (bcfg, bret, some bs) := by
        simp [calibStep, hlt]
      rw [List.foldl_cons, hstep]
      obtain ⟨h1, h2, h3, h4, h5⟩ := ih bcfg bret bs hr hs
      refine ⟨?_, h2, h3, h4, fun x hx => ?_⟩
      · rcases h1 with h1 | h1
        · exact Or.inl h1
        · exact Or.inr (List.mem_cons_of_mem _ h1)
      · rcases List.mem_cons.mp hx with rfl | hx
        · exact h4.trans (le_of_not_lt hlt)
        · exact h5 x hx

theorem calibrateWith_cons_min (f : ChurnConfig → Segment → RetWindow → ℚ)
    (base : ChurnConfig) (g0 : ℚ × ℚ × ℚ × ℚ) (gs : List (ℚ × ℚ × ℚ × ℚ)) :
    (calibrateWith (g0 :: gs) f base).1 ∈ (g0 :: gs).map (applyScales base) ∧
    (calibrateWith (g0 :: gs) f base).2.1 = f (calibrateWith (g0 :: gs) f base).1 ∧
    (calibrateWith (g0 :: gs) f base).2.2 =
      some (scoreOf f (calibrateWith (g0 :: gs) f base).1) ∧
    ∀ g ∈ (g0 :: gs).map (applyScales base),
      scoreOf f (calibrateWith (g0 :: gs) f base).1 ≤ scoreOf f g := by
  have hstep : calibStep f (base, emptyRet, none) (applyScales base g0) =
      (applyScales base g0, f (applyScales base g0),
        some (scoreOf f (applyScales base g0))) := rfl
  simp only [calibrateWith, List.map_cons, List.foldl_cons, hstep]
  obtain ⟨h1, h2, h3, h4, h5⟩ :=
    calibStep_foldl_min f (gs.map (applyScales base)) (applyScales base g0)
      (f (applyScales base g0)) (scoreOf f (applyScales base g0)) rfl rfl
  refine ⟨?_, h2, h3, fun x hx => ?_⟩
  · rcases h1 with h1 | h1
    · rw [h1]; exact List.mem_cons_self _ _
    · exact List.mem_cons_of_mem _ h1
  · rcases List.mem_cons.mp hx with rfl | hx
    · exact h4
    · exact h5 x hx

/-- C5 (amended): the grid search always terminates with a result — the
returned configuration is one of the 16 scaled grid candidates, the
returned retention is that candidate's achieved retention, and the
returned score is that candidate's (finite) score, minimal over the grid
(ties keep the first-found candidate).  The base configuration, kept as
the incumbent with an infinite sentinel score and the empty retention
dict, would be returned only if the grid were empty; the base
configuration's own score is never computed, so `absent improvement over
the base, return the base and its baseline score` does not hold (see the
counterexample). -/
theorem calibrate_returns_grid_min (f : ChurnConfig → Segment → RetWindow → ℚ)
    (base : ChurnConfig) :
    (calibrate f base).1 ∈ calibGrid.map (applyScales base) ∧
    (calibrate f base).2.1 = f (calibrate f base).1 ∧
    (calibrate f base).2.2 = some (scoreOf f (calibrate f base).1) ∧
    ∀ g ∈ calibGrid.map (applyScales base),
      scoreOf f (calibrate f base).1 ≤ scoreOf f g := by
  rcases hE : calibGrid with _ | ⟨g0, gs⟩
  · exact absurd hE (by decide)
  · have : calibrate f base = calibrateWith (g0 :: gs) f base := by
      rw [calibrate, hE]
    rw [this]
    exact calibrateWith_cons_min f base g0 gs

/-- The retention oracle used by the witness: every candidate achieves zero
retention everywhere. -/
def wZeroRet : ChurnConfig → Segment → RetWindow → ℚ := fun _ _ _ => 0

theorem calibrate_returns_grid_min_witness :
    (calibrate wZeroRet defaultChurnConfig).1 ∈
      calibGrid.map (applyScales defaultChurnConfig) ∧
    scoreOf wZeroRet (calibrate wZeroRet defaultChurnConfig).1 ≤
      scoreOf wZeroRet (applyScales defaultChurnConfig (1.05, 1.1, 1.1, 2.7)) :=
  ⟨(calibrate_returns_grid_min wZeroRet defaultChurnConfig).1,
   (calibrate_returns_grid_min wZeroRet defaultChurnConfig).2.2.2
     (applyScales defaultChurnConfig (1.05, 1.1, 1.1, 2.7)) (by with_unfolding_all decide)⟩

/-- The retention oracle of the C5 counterexample: the base (default)
configuration would achieve the targets exactly (score `0`), while every
other configuration achieves zero retention (score `> 0`): no grid
candidate improves on the base configuration's score. -/
def wBaseBestRet : ChurnConfig → Segment → RetWindow → ℚ := fun cfg =>
  if cfg = defaultChurnConfig then calibTarget else emptyRet

/-- C5 (counterexample): under `wBaseBestRet` no grid candidate's score
improves on the base configuration's score (`0`), yet the search does not
return the base configuration with its baseline score: it returns a grid
candidate (its `inactivity_mult` is `2.3`, not the base's `2.5`) with a
nonzero score — the incumbent is seeded with an infinite sentinel, not
with the base configuration's own score, which is never computed. -/
theorem calibrate_base_fallback_counterexample :
    ((calibGrid.map (applyScales defaultChurnConfig)).all (fun g =>
      !(decide (scoreOf wBaseBestRet g < scoreOf wBaseBestRet defaultChurnConfig)))) = true ∧
    scoreOf wBaseBestRet defaultChurnConfig = 0 ∧
    (calibrate wBaseBestRet defaultChurnConfig).1 ≠ defaultChurnConfig ∧
    (calibrate wBaseBestRet defaultChurnConfig).1.inactivityMult = 2.3 ∧
    (calibrate wBaseBestRet defaultChurnConfig).2.2 ≠
      some (scoreOf wBaseBestRet defaultChurnConfig) := by
  refine ⟨?_, ?_, ?_, ?_, ?_⟩ <;> with_unfolding_all decide

/-- The full calibration entry point as invoked: the sampled sub-population
`customers.sample(n=min(1000, len(customers)), random_state=seed)` is
produced by a deterministic collaborator `sampleOf` from the population and
the seed, and the per-candidate simulate-and-measure composite `runRet` is
a deterministic function of the sample and the seed. -/
def calibrateFull (sampleOf : List Customer → ℕ → List Customer)
    (runRet : List Customer → ℕ → ChurnConfig → Segment → RetWindow → ℚ)
    (grid : List (ℚ × ℚ × ℚ × ℚ)) (customers : List Customer) (seed : ℕ)
    (base : ChurnConfig) : ChurnConfig × (Segment → RetWindow → ℚ) × Option ℚ :=
  calibrateWith grid (runRet (sampleOf customers seed) seed) base

/-- C6: the calibration search is deterministic — two invocations with the
same customer sample, the same seed, the same hyperparameter grid (and the
same base configuration) return identical results, in particular
bit-identical best configuration and best score.  All randomness of the
underlying simulation is drawn from streams seeded by the `seed` argument
(`np.random.default_rng(seed)`, `random.seed(seed)`,
`random_state=seed`), which the embedding reflects by making the sampling
and the simulate-and-measure composite deterministic functions of their
inputs. -/
theorem calibrate_deterministic (sampleOf : List Customer → ℕ → List Customer)
    (runRet : List Customer → ℕ → ChurnConfig → Segment → RetWindow → ℚ)
    (g1 g2 : List (ℚ × ℚ × ℚ × ℚ)) (cust1 cust2 : List Customer) (seed1 seed2 : ℕ)
    (base1 base2 : ChurnConfig)
    (hc : cust1 = cust2) (hs : seed1 = seed2) (hg : g1 = g2) (hb : base1 = base2) :
    calibrateFull sampleOf runRet g1 cust1 seed1 base1 =
      calibrateFull sampleOf runRet g2 cust2 seed2 base2 := by
  subst hc; subst hs; subst hg; subst hb; rfl

theorem calibrate_deterministic_witness :
    calibrateFull (fun l _ => l) (fun _ _ _ _ _ => 0) calibGrid [wCustomer] 7
        defaultChurnConfig =
      calibrateFull (fun l _ => l) (fun _ _ _ _ _ => 0) calibGrid [wCustomer] 7
        defaultChurnConfig :=
  calibrate_deterministic (fun l _ => l) (fun _ _ _ _ _ => 0) calibGrid calibGrid
    [wCustomer] [wCustomer] 7 7 defaultChurnConfig defaultChurnConfig rfl rfl rfl rfl
